import Mathlib

/-!
Shallow embedding of the Wires rule-generation and evaluation engine of
`ktane-utils` (`src/ktane-utils/src/modules/wires.rs`), together with proofs
about it.

The repository's `crate::random` (the `RuleseedRandom` PRNG) and
`crate::edgework` modules are not part of the provided sources; they are
modelled from the specification where needed (see the doc comments of the
corresponding definitions).  Everything else is translated directly from
`wires.rs`.
-/

set_option maxRecDepth 10000

namespace Wires

/-- The colors a wire can have (`enum Color`, wires.rs).  Variant order matches
the declaration order, which `strum`'s `EnumIter` uses. -/
inductive Color where
  | Black
  | Blue
  | Red
  | White
  | Yellow
deriving DecidableEq, Repr

/-- The iteration order of `Color::iter()` (strum `EnumIter`: declaration order). -/
def colorList : List Color :=
  [.Black, .Blue, .Red, .White, .Yellow]

/-- Modelled from the spec: the fixed catalog of port types
(`crate::edgework::PortType`, not included in the provided sources).
The spec names Serial, Parallel, DVI, PS2, RJ45, StereoRCA. -/
inductive PortType where
  | Serial
  | Parallel
  | DVI
  | PS2
  | RJ45
  | StereoRCA
deriving DecidableEq, Repr

/-- Modelled from the spec: the iteration order of `PortType::iter()`. -/
def portTypeList : List PortType :=
  [.Serial, .Parallel, .DVI, .PS2, .RJ45, .StereoRCA]

/-- Modelled from the spec: the bomb-wide facts consumed by edgework queries
(`crate::edgework::Edgework`, not included in the provided sources). The spec
guarantees a serial number with at least one leading character and a trailing
digit, and a list of port plates each holding zero or more port types. -/
structure Edgework where
  serialFirst : Char
  serialLastDigit : Nat
  portPlates : List (List PortType)
deriving DecidableEq, Repr

/-- `enum WireQueryType` (wires.rs).  Variant order matches declaration order. -/
inductive WireQueryType where
  | ExactlyOneOfColor
  | ExactlyZeroOfColor
  | LastWireIs
  | MoreThanOneOfColor
deriving DecidableEq, Repr

/-- The iteration order of `WireQueryType::iter()`. -/
def wireQueryTypeList : List WireQueryType :=
  [.ExactlyOneOfColor, .ExactlyZeroOfColor, .LastWireIs, .MoreThanOneOfColor]

/-- `WireQueryType::wires_involved` (wires.rs). -/
def WireQueryType.wiresInvolved : WireQueryType → Nat
  | .MoreThanOneOfColor => 2
  | .ExactlyZeroOfColor => 0
  | _ => 1

/-- `struct WireQuery` (wires.rs). -/
structure WireQuery where
  query_type : WireQueryType
  color : Color
deriving DecidableEq, Repr

/-- `enum EdgeworkQuery` (wires.rs). -/
inductive EdgeworkQuery where
  | SerialStartsWithLetter
  | SerialOdd
  | HasEmptyPortPlate
  | PortPresent (port : PortType)
deriving DecidableEq, Repr

/-- `enum Query` (wires.rs). -/
inductive Query where
  | Edgework (q : EdgeworkQuery)
  | Wire (q : WireQuery)
deriving DecidableEq, Repr

/-- `Query::wires_involved` (wires.rs). -/
def Query.wiresInvolved : Query → Nat
  | .Edgework _ => 0
  | .Wire q => q.query_type.wiresInvolved

/-- `enum Solution` (wires.rs).  The index is a `u8` in the source; it is
modelled as `Nat` (generated indices are at most 5). -/
inductive Solution where
  | Index (n : Nat)
  | TheOneOfColor (c : Color)
  | FirstOfColor (c : Color)
  | LastOfColor (c : Color)
deriving DecidableEq, Repr

/-- `enum SolutionWeightKey` (wires.rs). -/
inductive SolutionWeightKey where
  | Index (n : Nat)
  | TheOneOfColor
  | FirstOfColor
  | LastOfColor
deriving DecidableEq, Repr

/-- `impl From<Solution> for SolutionWeightKey` (wires.rs). -/
def SolutionWeightKey.ofSolution : Solution → SolutionWeightKey
  | .Index n => .Index n
  | .TheOneOfColor _ => .TheOneOfColor
  | .FirstOfColor _ => .FirstOfColor
  | .LastOfColor _ => .LastOfColor

/-- `enum QueryWeightKey` (wires.rs). -/
inductive QueryWeightKey where
  | Edgework (q : EdgeworkQuery)
  | Wire (t : WireQueryType)
deriving DecidableEq, Repr

/-- `struct Rule` (wires.rs): 1–2 queries, all of which must hold, plus a
solution. -/
structure Rule where
  queries : List Query
  solution : Solution
deriving DecidableEq, Repr

/-- `struct RuleList` (wires.rs): the ordered rules for one wire count plus the
fallback solution. -/
structure RuleList where
  rules : List Rule
  otherwise : Solution
deriving DecidableEq, Repr

/-- `struct RuleSet` (wires.rs): four rule lists, for wire counts 3,4,5,6
(index `i` holds the list for wire count `i + 3`). -/
structure RuleSet where
  lists : List RuleList
deriving DecidableEq, Repr

/-! ### Evaluation -/

/-- The number of wires of color `color` in `wires`:
`wires.iter().filter(|&&wire| wire == color).count()` (wires.rs). -/
def countColor (wires : List Color) (color : Color) : Nat :=
  (wires.filter (fun w => w == color)).length

/-- `WireQuery::evaluate` (wires.rs).  `LastWireIs` dereferences
`wires.last().unwrap()`, which panics on an empty slice; the panic is modelled
as `none`. -/
def WireQuery.evaluate (q : WireQuery) (wires : List Color) : Option Bool :=
  match q.query_type with
  | .LastWireIs => wires.getLast?.map (fun c => c == q.color)
  | .ExactlyOneOfColor => some (countColor wires q.color == 1)
  | .MoreThanOneOfColor => some (decide (1 < countColor wires q.color))
  | .ExactlyZeroOfColor => some (countColor wires q.color == 0)

/-- `EdgeworkQuery::evaluate` (wires.rs); the `Edgework` data itself is
modelled from the spec.  `SerialStartsWithLetter` tests
`serial_number.as_bytes()[0].is_ascii_uppercase()`. -/
def EdgeworkQuery.evaluate (q : EdgeworkQuery) (e : Edgework) : Bool :=
  match q with
  | .SerialStartsWithLetter =>
      decide (Char.toNat 'A' ≤ e.serialFirst.toNat ∧ e.serialFirst.toNat ≤ Char.toNat 'Z')
  | .SerialOdd => e.serialLastDigit % 2 == 1
  | .HasEmptyPortPlate => e.portPlates.any (fun plate => plate.isEmpty)
  | .PortPresent p => e.portPlates.any (fun plate => plate.contains p)

/-- `Query::evaluate` (wires.rs). -/
def Query.evaluate (q : Query) (e : Wires.Edgework) (wires : List Color) : Option Bool :=
  match q with
  | .Edgework eq => some (eq.evaluate e)
  | .Wire wq => wq.evaluate wires

/-- `self.queries.iter().all(|query| query.evaluate(edgework, wires))`
(wires.rs, `Rule::evaluate`): `all` short-circuits at the first `false`, so a
panic (`none`) in a later query is not reached. -/
def allQueriesHold (qs : List Query) (e : Edgework) (wires : List Color) : Option Bool :=
  match qs with
  | [] => some true
  | q :: rest =>
      match q.evaluate e wires with
      | none => none
      | some false => some false
      | some true => allQueriesHold rest e wires

/-- `Rule::evaluate` (wires.rs). -/
def Rule.evaluate (r : Rule) (e : Edgework) (wires : List Color) : Option Bool :=
  allQueriesHold r.queries e wires

/-- The scan of `RuleList::evaluate` (wires.rs):
`rules.iter().filter(|rule| rule.evaluate(..)).map(|rule| rule.solution).next()
.unwrap_or(otherwise)`.  The iterator is lazy, so rules after the first match
are never evaluated. -/
def firstMatch (rules : List Rule) (otherwise : Solution) (e : Edgework)
    (wires : List Color) : Option Solution :=
  match rules with
  | [] => some otherwise
  | r :: rest =>
      match r.evaluate e wires with
      | none => none
      | some true => some r.solution
      | some false => firstMatch rest otherwise e wires

/-- `RuleList::evaluate` (wires.rs). -/
def RuleList.evaluate (rl : RuleList) (e : Edgework) (wires : List Color) :
    Option Solution :=
  firstMatch rl.rules rl.otherwise e wires

/-- `Rule::is_valid` (wires.rs).  The source first returns `true` for
single-query rules and otherwise inspects `queries[0]` and `queries[1]`
(indexing panics for an empty rule, which generation never produces; the
empty case is mapped to `true` here). -/
def Rule.isValid (r : Rule) : Bool :=
  match r.queries with
  | [_] => true
  | q1 :: q2 :: _ =>
      match q1, q2 with
      | .Wire first, .Wire second =>
          if first.color == second.color then
            ¬((first.query_type == .ExactlyOneOfColor && second.query_type == .ExactlyZeroOfColor)
              || (first.query_type == .ExactlyZeroOfColor && second.query_type == .ExactlyOneOfColor)
              || (first.query_type == .ExactlyOneOfColor && second.query_type == .MoreThanOneOfColor)
              || (first.query_type == .MoreThanOneOfColor && second.query_type == .ExactlyOneOfColor)
              || (first.query_type == .MoreThanOneOfColor && second.query_type == .ExactlyZeroOfColor)
              || (first.query_type == .ExactlyZeroOfColor && second.query_type == .MoreThanOneOfColor)
              || (first.query_type == .LastWireIs && second.query_type == .ExactlyZeroOfColor)
              || (first.query_type == .ExactlyZeroOfColor && second.query_type == .LastWireIs))
          else
            ¬(first.query_type == .LastWireIs && second.query_type == .LastWireIs)
      | _, _ => true
  | [] => true

/-! ### Solution resolution -/

/-- `Iterator::position`: the index of the first element satisfying `p`. -/
def position (p : α → Bool) : List α → Option Nat
  | [] => none
  | x :: xs => if p x then some 0 else (position p xs).map (· + 1)

/-- `Iterator::rposition`: the index of the last element satisfying `p`. -/
def rposition (p : α → Bool) : List α → Option Nat
  | [] => none
  | x :: xs =>
      match rposition p xs with
      | some k => some (k + 1)
      | none => if p x then some 0 else none

/-- `Solution::as_index` (wires.rs).  The source converts the found `usize`
position with `as u8`, which truncates modulo 256. -/
def Solution.as_index (s : Solution) (wires : List Color) : Option Nat :=
  match s with
  | .Index n => some n
  | .FirstOfColor color | .TheOneOfColor color =>
      (position (fun w => w == color) wires).map (· % 256)
  | .LastOfColor color =>
      (rposition (fun w => w == color) wires).map (· % 256)

/-! ### The seeded random source

`crate::random::RuleseedRandom` is not part of the provided sources.  It is
modelled from the spec's consumed contract (§4.1): a deterministic source of
doubles in `[0,1)` and of uniform/weighted picks.  The model carries two
explicit streams: one of rationals (for `next_double`) and one of naturals
(consumed by `next_below`, `choice` and `weighted_select`).  Exhausted streams
yield `0`.  `weighted_select` is modelled by an index draw reduced modulo the
candidate count: the spec fixes only the distribution (proportional to the
current weights, which stay strictly positive under the decay updates), so the
set of reachable picks — every candidate — is preserved, which is all the
theorems below depend on. -/

/-- Modelled from the spec: explicit-stream stand-in for
`crate::random::RuleseedRandom`. -/
structure RuleseedRandom where
  doubles : List ℚ
  ints : List Nat
deriving DecidableEq, Repr

/-- Pop the next natural from the integer stream (0 when exhausted). -/
def RuleseedRandom.popInt (r : RuleseedRandom) : Nat × RuleseedRandom :=
  match r.ints with
  | [] => (0, r)
  | i :: rest => (i, ⟨r.doubles, rest⟩)

/-- Modelled from the spec: `next_double()` → a value in `[0,1)`. -/
def RuleseedRandom.nextDouble (r : RuleseedRandom) : ℚ × RuleseedRandom :=
  match r.doubles with
  | [] => (0, r)
  | d :: rest => (d, ⟨rest, r.ints⟩)

/-- Modelled from the spec: `next_below(n)` → a uniform integer in `[0,n)`. -/
def RuleseedRandom.nextBelow (r : RuleseedRandom) (n : Nat) : Nat × RuleseedRandom :=
  let p := r.popInt
  (p.1 % n, p.2)

/-- Modelled from the spec: `choice(items)` → a uniform pick of one element,
or `none` if `items` is empty. -/
def RuleseedRandom.choice (r : RuleseedRandom) (items : List α) :
    Option α × RuleseedRandom :=
  let p := r.popInt
  (items[p.1 % items.length]?, p.2)

/-- Modelled from the spec: `weighted_select(items, weight_table)` → a pick of
one element with probability proportional to its weight (all weights stay
positive, so any element can be picked; the pick is modelled by an index
draw).  `none` models the panic on an empty candidate list. -/
def RuleseedRandom.weightedSelect (r : RuleseedRandom) (items : List α)
    (_weights : List (β × ℚ)) : Option α × RuleseedRandom :=
  let p := r.popInt
  (items[p.1 % items.length]?, p.2)

/-- Modelled from the spec: the single reserved seed selecting the static
vanilla rule table (`crate::random::VANILLA_SEED`; its numeric value is
immaterial to the claims). -/
def VANILLA_SEED : Nat := 1

/-! ### Rule generation -/

/-- Multiply a weight by `1/d` — the decay `×0.1` (`d = 10`) and `×0.05`
(`d = 20`) of the source — via `mkRat`, which (unlike `Rat.mul`, marked
irreducible) the kernel can evaluate. -/
def decayWeight (w : ℚ) (d : Nat) : ℚ := mkRat w.num (w.den * d)

/-- The current weight of `k` in an association-list weight table (the
source's `HashMap<_, f64>`): the most recently inserted binding, defaulting
to 1 as in `entry(k).or_insert(1.0)`. -/
def weightOf [BEq α] (w : List (α × ℚ)) (k : α) : ℚ :=
  ((w.find? (fun p => p.1 == k)).map Prod.snd).getD 1

/-- The per-wire-count generation state: the random source plus the two weight
tables (`HashMap<_, f64>` in the source, modelled as association lists where
the most recent binding shadows older ones; both start empty, matching
`HashMap::new()`). -/
structure GenState where
  random : RuleseedRandom
  queryWeights : List (QueryWeightKey × ℚ)
  solutionWeights : List (SolutionWeightKey × ℚ)
deriving DecidableEq, Repr

/-- `WireQueryType::colorize` (wires.rs): draw an index below the number of
available colors, and remove the color at that index.  `none` models the
panic of `remove` on an empty list (never reached: at most two colors are ever
removed from the five available). -/
def WireQueryType.colorize (t : WireQueryType) (r : RuleseedRandom)
    (colorsAvailable : List Color) :
    Option (WireQuery × List Color × RuleseedRandom) :=
  let nb := r.nextBelow colorsAvailable.length
  match colorsAvailable[nb.1]? with
  | none => none
  | some color => some (⟨t, color⟩, colorsAvailable.eraseIdx nb.1, nb.2)

/-- `SolutionWeightKey::colorize` (wires.rs): `choice` is consumed first
(also for `Index`, which then ignores it); the `unwrap` of a missing color is
modelled as `none`. -/
def SolutionWeightKey.colorize (k : SolutionWeightKey) (r : RuleseedRandom)
    (colorsAvailable : List Color) : Option (Solution × RuleseedRandom) :=
  match k with
  | .Index n => some (.Index n, (r.choice colorsAvailable).2)
  | .TheOneOfColor =>
      match (r.choice colorsAvailable).1 with
      | some color => some (.TheOneOfColor color, (r.choice colorsAvailable).2)
      | none => none
  | .FirstOfColor =>
      match (r.choice colorsAvailable).1 with
      | some color => some (.FirstOfColor color, (r.choice colorsAvailable).2)
      | none => none
  | .LastOfColor =>
      match (r.choice colorsAvailable).1 with
      | some color => some (.LastOfColor color, (r.choice colorsAvailable).2)
      | none => none

/-- `RuleSet::choose_query` (wires.rs): weighted-select a key, decay its
weight by ×0.1, then colorize it (`QueryWeightKey::colorize`: edgework keys
take no color). -/
def chooseQuery (gs : GenState) (availableQueries : List QueryWeightKey)
    (colorsAvailable : List Color) :
    Option (Query × List Color × GenState) :=
  let sel := gs.random.weightedSelect availableQueries gs.queryWeights
  match sel.1 with
  | none => none
  | some key =>
      let qw := (key, decayWeight (weightOf gs.queryWeights key) 10) :: gs.queryWeights
      match key with
      | .Edgework q => some (.Edgework q, colorsAvailable, ⟨sel.2, qw, gs.solutionWeights⟩)
      | .Wire t =>
          match t.colorize sel.2 colorsAvailable with
          | none => none
          | some (wq, ca, r') => some (.Wire wq, ca, ⟨r', qw, gs.solutionWeights⟩)

/-- `Query::additional_solutions` (wires.rs). -/
def Query.additionalSolutions : Query → List SolutionWeightKey
  | .Wire ⟨.ExactlyOneOfColor, _⟩ => [.TheOneOfColor]
  | .Wire ⟨.MoreThanOneOfColor, _⟩ => [.FirstOfColor, .LastOfColor]
  | _ => []

/-- `Query::solution_colors` (wires.rs). -/
def Query.solutionColors : Query → Option Color
  | .Wire ⟨.ExactlyOneOfColor, c⟩ => some c
  | .Wire ⟨.MoreThanOneOfColor, c⟩ => some c
  | .Wire ⟨.LastWireIs, c⟩ => some c
  | _ => none

/-- `RuleSet::possible_solutions` (wires.rs): `Index(0)`, `Index(1)`,
`Index(wire_count-1)`, then `Index(i)` for `i` in `2..wire_count-1`, then the
extra solution kinds contributed by the queries. -/
def possibleSolutions (queries : List Query) (wireCount : Nat) :
    List SolutionWeightKey :=
  [.Index 0, .Index 1, .Index (wireCount - 1)]
    ++ (List.range' 2 (wireCount - 3)).map .Index
    ++ queries.flatMap Query.additionalSolutions

/-- The threshold 0.6 as an exact rational (3/5), written in normalized form
so that kernel evaluation of comparisons does not need to normalize a
division. -/
def sixTenths : ℚ := ⟨3, 5, by decide, by decide⟩

/-- `RuleSet::roll_rule_count` (wires.rs): 3 if `next_double() < 0.6`, else 4. -/
def rollRuleCount (r : RuleseedRandom) : Nat × RuleseedRandom :=
  let d := r.nextDouble
  (if d.1 < sixTenths then 3 else 4, d.2)

/-- `RuleSet::roll_compound` (wires.rs): compound iff `next_double() >= 0.6`. -/
def rollCompound (r : RuleseedRandom) : Bool × RuleseedRandom :=
  let d := r.nextDouble
  (decide (sixTenths ≤ d.1), d.2)

/-- The auxiliary-query candidate set of `RuleSet::generate_rule` (wires.rs):
the two serial queries, the wire-query kinds whose cost is strictly below the
remaining wire budget, and — away from the vanilla seed — the port queries. -/
def auxCandidates (wireCount : Nat) (mainQuery : Query) (vanillaSeed : Bool) :
    List QueryWeightKey :=
  ([EdgeworkQuery.SerialStartsWithLetter, EdgeworkQuery.SerialOdd].map
      QueryWeightKey.Edgework)
    ++ ((wireQueryTypeList.filter
          (fun t => decide (t.wiresInvolved < wireCount - mainQuery.wiresInvolved))).map
        QueryWeightKey.Wire)
    ++ (if !vanillaSeed then
          (portTypeList.map (fun p => QueryWeightKey.Edgework (.PortPresent p)))
            ++ [QueryWeightKey.Edgework .HasEmptyPortPlate]
        else [])

/-- The auxiliary-query step of `RuleSet::generate_rule` (wires.rs): for a
compound rule, weighted-select from the auxiliary candidates; otherwise no
auxiliary query. -/
def auxQueryStep (gs : GenState) (compound : Bool) (wireCount : Nat)
    (mainQuery : Query) (colorsAvailable : List Color) (vanillaSeed : Bool) :
    Option (Option Query × List Color × GenState) :=
  if compound then
    match chooseQuery gs (auxCandidates wireCount mainQuery vanillaSeed) colorsAvailable with
    | none => none
    | some (q, ca, gs') => some (some q, ca, gs')
  else some (none, colorsAvailable, gs)

/-- The solution-selection step of `RuleSet::generate_rule` (wires.rs):
weighted-select a solution key from the candidate set, decay its weight by
×0.05, and colorize it with the colors contributed by the queries. -/
def solutionStep (gs : GenState) (queries : List Query) (wireCount : Nat) :
    Option (Solution × GenState) :=
  match (gs.random.weightedSelect (possibleSolutions queries wireCount)
      gs.solutionWeights).1 with
  | none => none
  | some key =>
      match key.colorize
          (gs.random.weightedSelect (possibleSolutions queries wireCount)
            gs.solutionWeights).2
          (queries.filterMap Query.solutionColors) with
      | none => none
      | some (solution, r') =>
          some (solution,
            ⟨r', gs.queryWeights,
              (key, decayWeight (weightOf gs.solutionWeights key) 20)
                :: gs.solutionWeights⟩)

/-- `RuleSet::generate_rule` (wires.rs): roll compound, choose the main query
from all wire-query kinds, optionally choose an auxiliary query, then choose
and colorize the solution. -/
def generateRule (gs : GenState) (wireCount : Nat) (vanillaSeed : Bool) :
    Option (Rule × GenState) :=
  match chooseQuery ⟨(rollCompound gs.random).2, gs.queryWeights, gs.solutionWeights⟩
      (wireQueryTypeList.map QueryWeightKey.Wire) colorList with
  | none => none
  | some (mainQuery, colorsAvailable, gs1) =>
      match auxQueryStep gs1 (rollCompound gs.random).1 wireCount mainQuery
          colorsAvailable vanillaSeed with
      | none => none
      | some (auxQuery, _, gs2) =>
          match solutionStep gs2 (mainQuery :: auxQuery.toList) wireCount with
          | none => none
          | some (solution, gs3) =>
              some (⟨mainQuery :: auxQuery.toList, solution⟩, gs3)

/-- The `while rules.len() < rule_count` accumulation loop of `RuleSet::new`
(wires.rs): generate rules, keeping only the valid ones.  The source loop is
unbounded; `fuel` bounds the number of generation attempts, with `none` for
exhaustion (and for a modelled panic inside `generate_rule`). -/
def buildRules (wireCount : Nat) (vanillaSeed : Bool) (fuel : Nat)
    (gs : GenState) (acc : List Rule) (ruleCount : Nat) :
    Option (List Rule × GenState) :=
  if acc.length < ruleCount then
    match fuel with
    | 0 => none
    | fuel' + 1 =>
        match generateRule gs wireCount vanillaSeed with
        | none => none
        | some (rule, gs') =>
            buildRules wireCount vanillaSeed fuel' gs'
              (if rule.isValid then acc ++ [rule] else acc) ruleCount
  else
    some (acc, gs)

/-- `rule.queries.len().wrapping_neg()`, the sort key of `RuleSet::new`
(wires.rs); `usize` negation wraps modulo `2^64`. -/
def Rule.sortKey (r : Rule) : Nat :=
  (2 ^ 64 - r.queries.length % 2 ^ 64) % 2 ^ 64

/-- Stable insertion of `x` into a list sorted by `key` (ascending): `x` is
placed before the first element whose key is not smaller. -/
def insertByKey (key : α → Nat) (x : α) : List α → List α
  | [] => [x]
  | y :: ys => if key y < key x then y :: insertByKey key x ys else x :: y :: ys

/-- Stable ascending sort by `key`; models `sort_by_key`, Rust's stable sort
(a stable sort's output is uniquely determined, so any stable algorithm is a
faithful model). -/
def sortByKey (key : α → Nat) : List α → List α
  | [] => []
  | x :: xs => insertByKey key x (sortByKey key xs)

/-- The `otherwise` computation of `RuleSet::new` (wires.rs): away from the
vanilla seed, the base candidate set is filtered (`retain`) to exclude the
solution key of `rules.last().unwrap()` — the last rule *after* the sort
(`none` models the `unwrap` panic on an empty list); one candidate is then
chosen uniformly and colorized against an empty color list. -/
def otherwiseStep (gs : GenState) (sorted : List Rule) (wireCount : Nat)
    (vanillaSeed : Bool) : Option (Solution × RuleseedRandom) :=
  match
    (if vanillaSeed then some (possibleSolutions [] wireCount)
      else
        (sorted.getLast?).map (fun lastRule =>
          (possibleSolutions [] wireCount).filter
            (fun s => !(s == SolutionWeightKey.ofSolution lastRule.solution))))
  with
  | none => none
  | some solutions =>
      match (gs.random.choice solutions).1 with
      | none => none
      | some key => key.colorize (gs.random.choice solutions).2 []

/-- One iteration of the per-wire-count closure in `RuleSet::new` (wires.rs):
roll the rule count, accumulate valid rules with fresh weight tables, sort
compound rules to the front, then compute the `otherwise` fallback.  Returns
the pre-sort rule list alongside the resulting `RuleList`. -/
def genForWireCount (fuel : Nat) (random : RuleseedRandom) (wireCount : Nat)
    (vanillaSeed : Bool) :
    Option (List Rule × RuleList × RuleseedRandom) :=
  match buildRules wireCount vanillaSeed fuel
      ⟨(rollRuleCount random).2, [], []⟩ [] (rollRuleCount random).1 with
  | none => none
  | some (rules, gs) =>
      match otherwiseStep gs (sortByKey Rule.sortKey rules) wireCount vanillaSeed with
      | none => none
      | some (otherwise, rOut) =>
          some (rules, ⟨sortByKey Rule.sortKey rules, otherwise⟩, rOut)

/-- `RuleSet::vanilla_ruleset` (wires.rs): the body in the sources is
`unimplemented!()` — a panic — with the actual static table only present as
commented-out code; the panic is modelled as `none`. -/
def vanillaRuleset : Option RuleSet := none

/-- `RuleSet::new` (wires.rs).  The reserved seed short-circuits to the
vanilla table; otherwise `array_init` runs the generation closure for wire
counts 3,4,5,6 in order, threading one random source (created from the seed
by the modelled constructor `mkRandom`). -/
def RuleSet.new (fuel : Nat) (mkRandom : Nat → RuleseedRandom) (seed : Nat) :
    Option RuleSet :=
  if seed = VANILLA_SEED then
    vanillaRuleset
  else
    let vanilla := decide (seed = VANILLA_SEED)
    match genForWireCount fuel (mkRandom seed) 3 vanilla with
    | none => none
    | some (_, rl3, r) =>
        match genForWireCount fuel r 4 vanilla with
        | none => none
        | some (_, rl4, r) =>
            match genForWireCount fuel r 5 vanilla with
            | none => none
            | some (_, rl5, r) =>
                match genForWireCount fuel r 6 vanilla with
                | none => none
                | some (_, rl6, _) => some ⟨[rl3, rl4, rl5, rl6]⟩

/-! ### Concrete values used by witnesses and counterexamples -/

/-- A sample edgework value (serial `A…0`, no port plates). -/
def exampleEdgework : Edgework := ⟨'A', 0, []⟩

/-- A rule matching when the last wire is red. -/
def lastRedRule : Rule := ⟨[Query.Wire ⟨.LastWireIs, .Red⟩], Solution.Index 0⟩

/-- A rule list with `lastRedRule` as its only rule. -/
def lastRedRuleList : RuleList := ⟨[lastRedRule], Solution.Index 1⟩

/-- A 257-wire sequence whose only red wire sits at position 256. -/
def longWires : List Color := List.replicate 256 Color.Black ++ [Color.Red]

/-- A pseudo-random source construction returning exhausted streams (which
yield zeros): under it every generation step picks the first candidate. -/
def mk0 : Nat → RuleseedRandom := fun _ => ⟨[], []⟩

/-- The rule generated by every attempt under `mk0`. -/
def zeroRule : Rule := ⟨[Query.Wire ⟨.ExactlyOneOfColor, .Black⟩], Solution.Index 0⟩

/-- The rule list generated for every wire count under `mk0`. -/
def zeroRuleList : RuleList := ⟨[zeroRule, zeroRule, zeroRule], Solution.Index 1⟩

/-- The rule set generated under `mk0` for any non-reserved seed. -/
def zeroRuleSet : RuleSet :=
  ⟨[zeroRuleList, zeroRuleList, zeroRuleList, zeroRuleList]⟩

/-- A random stream under which, at wire count 3, the third (last) generated
rule is compound while the first two are single-query — so the sort moves the
last generated rule to the front — and the `otherwise` draw picks that rule's
solution. -/
def c1Stream : RuleseedRandom :=
  ⟨[0, 0, 0, sixTenths], [0, 0, 0, 0, 0, 0, 1, 0, 0, 0, 1, 2, 0, 1, 0]⟩

/-- The fresh generation state under `mk0` (empty streams, empty tables). -/
def mk0GenState0 : GenState := ⟨⟨[], []⟩, [], []⟩

/-- The generation state under `mk0` after one rule. -/
def mk0GenState1 : GenState :=
  ⟨⟨[], []⟩,
    [(QueryWeightKey.Wire .ExactlyOneOfColor, ⟨1, 10, by decide, by decide⟩)],
    [(SolutionWeightKey.Index 0, ⟨1, 20, by decide, by decide⟩)]⟩

/-- The generation state under `mk0` after two rules. -/
def mk0GenState2 : GenState :=
  ⟨⟨[], []⟩,
    [(QueryWeightKey.Wire .ExactlyOneOfColor, ⟨1, 100, by decide, by decide⟩),
      (QueryWeightKey.Wire .ExactlyOneOfColor, ⟨1, 10, by decide, by decide⟩)],
    [(SolutionWeightKey.Index 0, ⟨1, 400, by decide, by decide⟩),
      (SolutionWeightKey.Index 0, ⟨1, 20, by decide, by decide⟩)]⟩

/-- The generation state under `mk0` after three rules. -/
def mk0GenState3 : GenState :=
  ⟨⟨[], []⟩,
    [(QueryWeightKey.Wire .ExactlyOneOfColor, ⟨1, 1000, by decide, by decide⟩),
      (QueryWeightKey.Wire .ExactlyOneOfColor, ⟨1, 100, by decide, by decide⟩),
      (QueryWeightKey.Wire .ExactlyOneOfColor, ⟨1, 10, by decide, by decide⟩)],
    [(SolutionWeightKey.Index 0, ⟨1, 8000, by decide, by decide⟩),
      (SolutionWeightKey.Index 0, ⟨1, 400, by decide, by decide⟩),
      (SolutionWeightKey.Index 0, ⟨1, 20, by decide, by decide⟩)]⟩

/-- The second rule generated under `c1Stream` at wire count 3. -/
def c1RuleB : Rule := ⟨[Query.Wire ⟨.ExactlyOneOfColor, .Black⟩], Solution.Index 1⟩

/-- The third (last-generated, compound) rule under `c1Stream` at wire
count 3. -/
def c1RuleC : Rule :=
  ⟨[Query.Wire ⟨.ExactlyOneOfColor, .Black⟩, Query.Edgework .SerialOdd],
    Solution.Index 2⟩

/-- The fresh generation state under `c1Stream` (after the rule-count roll). -/
def c1GenState0 : GenState :=
  ⟨⟨[0, 0, sixTenths], [0, 0, 0, 0, 0, 0, 1, 0, 0, 0, 1, 2, 0, 1, 0]⟩, [], []⟩

/-- The generation state under `c1Stream` after one rule. -/
def c1GenState1 : GenState :=
  ⟨⟨[0, sixTenths], [0, 0, 1, 0, 0, 0, 1, 2, 0, 1, 0]⟩,
    [(QueryWeightKey.Wire .ExactlyOneOfColor, ⟨1, 10, by decide, by decide⟩)],
    [(SolutionWeightKey.Index 0, ⟨1, 20, by decide, by decide⟩)]⟩

/-- The generation state under `c1Stream` after two rules. -/
def c1GenState2 : GenState :=
  ⟨⟨[sixTenths], [0, 0, 1, 2, 0, 1, 0]⟩,
    [(QueryWeightKey.Wire .ExactlyOneOfColor, ⟨1, 100, by decide, by decide⟩),
      (QueryWeightKey.Wire .ExactlyOneOfColor, ⟨1, 10, by decide, by decide⟩)],
    [(SolutionWeightKey.Index 1, ⟨1, 20, by decide, by decide⟩),
      (SolutionWeightKey.Index 0, ⟨1, 20, by decide, by decide⟩)]⟩

/-- The generation state under `c1Stream` after three rules. -/
def c1GenState3 : GenState :=
  ⟨⟨[], [1, 0]⟩,
    [(QueryWeightKey.Edgework .SerialOdd, ⟨1, 10, by decide, by decide⟩),
      (QueryWeightKey.Wire .ExactlyOneOfColor, ⟨1, 1000, by decide, by decide⟩),
      (QueryWeightKey.Wire .ExactlyOneOfColor, ⟨1, 100, by decide, by decide⟩),
      (QueryWeightKey.Wire .ExactlyOneOfColor, ⟨1, 10, by decide, by decide⟩)],
    [(SolutionWeightKey.Index 2, ⟨1, 20, by decide, by decide⟩),
      (SolutionWeightKey.Index 1, ⟨1, 20, by decide, by decide⟩),
      (SolutionWeightKey.Index 0, ⟨1, 20, by decide, by decide⟩)]⟩

/-- Every `Index` solution of the rule list — in the rules and in the
`otherwise` fallback — is at most `w - 1`. -/
def RuleList.indexSolutionsWithin (rl : RuleList) (w : Nat) : Prop :=
  (∀ r ∈ rl.rules, ∀ n : Nat, r.solution = .Index n → n ≤ w - 1)
  ∧ (∀ n : Nat, rl.otherwise = .Index n → n ≤ w - 1)

/-- The `otherwise` solution is drawn from the base candidate set for `w` and
differs (as a solution key) from the solution of the rule list's last rule. -/
def RuleList.otherwiseExcludesLast (rl : RuleList) (w : Nat) : Prop :=
  ∀ lastRule, rl.rules.getLast? = some lastRule →
    SolutionWeightKey.ofSolution rl.otherwise ∈ possibleSolutions [] w
    ∧ SolutionWeightKey.ofSolution rl.otherwise
        ≠ SolutionWeightKey.ofSolution lastRule.solution

/-- No single-query rule precedes any two-query rule in the list. -/
def RuleList.compoundFirst (rl : RuleList) : Prop :=
  ∀ i j : Nat, ∀ hi : i < rl.rules.length, ∀ hj : j < rl.rules.length, i < j →
    ¬((rl.rules.get ⟨i, hi⟩).queries.length = 1
      ∧ (rl.rules.get ⟨j, hj⟩).queries.length = 2)

/-! ### Lemmas about evaluation -/

theorem sixTenths_eq_div : sixTenths = 3 / 5 := by
  unfold sixTenths
  rw [Rat.mk'_eq_divInt, Rat.divInt_eq_div]
  norm_num

theorem countColor_eq_count (wires : List Color) (c : Color) :
    countColor wires c = wires.count c := by
  simp [countColor, List.count_eq_countP, List.countP_eq_length_filter]

theorem allQueriesHold_eq_true_iff (qs : List Query) (e : Edgework) (wires : List Color) :
    allQueriesHold qs e wires = some true ↔ ∀ q ∈ qs, q.evaluate e wires = some true := by
  induction qs with
  | nil => simp [allQueriesHold]
  | cons q rest ih =>
      rw [allQueriesHold]
      cases hq : q.evaluate e wires with
      | none => simp [hq]
      | some b =>
          cases b with
          | false => simp [hq]
          | true => simp [hq, ih]

theorem Query.evaluate_isSome_of_ne_nil (q : Query) (e : Wires.Edgework) (wires : List Color)
    (h : wires ≠ []) : q.evaluate e wires ≠ none := by
  cases q with
  | Edgework eq => simp [Query.evaluate]
  | Wire wq =>
      cases wq with
      | mk t c =>
          cases t <;>
            simp [Query.evaluate, WireQuery.evaluate, List.getLast?_eq_getLast _ h]

theorem Rule.evaluate_total_of_ne_nil (r : Rule) (e : Edgework) (wires : List Color)
    (h : wires ≠ []) : r.evaluate e wires ≠ none := by
  show allQueriesHold r.queries e wires ≠ none
  induction r.queries with
  | nil => simp [allQueriesHold]
  | cons q rest ih =>
      rw [allQueriesHold]
      cases hq : q.evaluate e wires with
      | none => exact absurd hq (Query.evaluate_isSome_of_ne_nil q e wires h)
      | some b => cases b with | false => simp | true => exact ih

theorem firstMatch_eq_find? (rules : List Rule) (otherwise : Solution)
    (e : Edgework) (wires : List Color)
    (h : ∀ r ∈ rules, r.evaluate e wires ≠ none) :
    firstMatch rules otherwise e wires =
      some ((((rules.find? (fun r => r.evaluate e wires == some true)).map
        Rule.solution)).getD otherwise) := by
  induction rules with
  | nil => simp [firstMatch]
  | cons r rest ih =>
      rw [firstMatch]
      cases hr : r.evaluate e wires with
      | none => exact absurd hr (h r (by simp))
      | some b =>
          cases b with
          | true => simp [List.find?_cons, hr]
          | false =>
              rw [ih (fun r hm => h r (by simp [hm]))]
              simp [List.find?_cons, hr]

/-! ### Lemmas about the random model and candidate sets -/

theorem RuleseedRandom.choice_mem {items : List α} {x : α}
    {r : RuleseedRandom} (h : (r.choice items).1 = some x) : x ∈ items :=
  List.getElem?_mem h

theorem RuleseedRandom.weightedSelect_mem {items : List α} {x : α}
    {w : List (β × ℚ)} {r : RuleseedRandom}
    (h : (r.weightedSelect items w).1 = some x) : x ∈ items :=
  List.getElem?_mem h

theorem possibleSolutions_index_le {queries : List Query} {wireCount : Nat}
    {s : SolutionWeightKey} (hs : s ∈ possibleSolutions queries wireCount)
    (hw : 2 ≤ wireCount) :
    ∀ n, s = .Index n → n ≤ wireCount - 1 := by
  intro n hn
  subst hn
  unfold possibleSolutions at hs
  rcases List.mem_append.1 hs with h | hextra
  · rcases List.mem_append.1 h with h3 | hrange
    · simp only [List.mem_cons, List.not_mem_nil, or_false] at h3
      rcases h3 with h | h | h <;> (injection h with h; omega)
    · simp only [List.mem_map] at hrange
      obtain ⟨i, hi, hie⟩ := hrange
      injection hie with hie
      have := List.mem_range'_1.1 hi
      omega
  · simp only [List.mem_flatMap] at hextra
    obtain ⟨q, _, hq⟩ := hextra
    rcases q with eq | ⟨t, c⟩
    · simp [Query.additionalSolutions] at hq
    · cases t <;> simp [Query.additionalSolutions] at hq


/-! ### Lemmas about `position` and `rposition` -/

theorem position_none (c : Color) (l : List Color)
    (h : position (fun w => w == c) l = none) : ∀ j : Nat, l[j]? ≠ some c := by
  induction l with
  | nil => intro j; simp
  | cons x xs ih =>
      rw [position] at h
      by_cases hx : x = c
      · rw [if_pos (by simp [hx])] at h
        exact Option.noConfusion h
      · rw [if_neg (by simp [hx]), Option.map_eq_none'] at h
        intro j
        cases j with
        | zero => simpa using hx
        | succ m => simpa using ih h m

theorem position_sound (c : Color) (l : List Color) (k : Nat)
    (h : position (fun w => w == c) l = some k) :
    l[k]? = some c ∧ ∀ j : Nat, j < k → l[j]? ≠ some c := by
  induction l generalizing k with
  | nil => simp [position] at h
  | cons x xs ih =>
      rw [position] at h
      by_cases hx : x = c
      · rw [if_pos (by simp [hx])] at h
        injection h with h
        subst h
        exact ⟨by simp [hx], fun j hj => absurd hj (by omega)⟩
      · rw [if_neg (by simp [hx]), Option.map_eq_some'] at h
        obtain ⟨m, hm, hk⟩ := h
        subst hk
        obtain ⟨h1, h2⟩ := ih m hm
        refine ⟨by simpa using h1, ?_⟩
        intro j hj
        cases j with
        | zero => simpa using hx
        | succ i => simpa using h2 i (by omega)

theorem position_complete (c : Color) (l : List Color) (k : Nat)
    (hk : l[k]? = some c) (hbefore : ∀ j : Nat, j < k → l[j]? ≠ some c) :
    position (fun w => w == c) l = some k := by
  cases hp : position (fun w => w == c) l with
  | none => exact absurd hk (position_none c l hp k)
  | some m =>
      obtain ⟨h1, h2⟩ := position_sound c l m hp
      rcases Nat.lt_trichotomy m k with h | h | h
      · exact absurd h1 (hbefore m h)
      · rw [h]
      · exact absurd hk (h2 k h)

theorem rposition_none (c : Color) (l : List Color)
    (h : rposition (fun w => w == c) l = none) : ∀ j : Nat, l[j]? ≠ some c := by
  induction l with
  | nil => intro j; simp
  | cons x xs ih =>
      rw [rposition] at h
      cases hr : rposition (fun w => w == c) xs with
      | some m => rw [hr] at h; exact Option.noConfusion h
      | none =>
          rw [hr] at h
          by_cases hx : x = c
          · rw [if_pos (by simp [hx])] at h
            exact Option.noConfusion h
          · intro j
            cases j with
            | zero => simpa using hx
            | succ m => simpa using ih hr m

theorem rposition_sound (c : Color) (l : List Color) (k : Nat)
    (h : rposition (fun w => w == c) l = some k) :
    l[k]? = some c ∧ ∀ j : Nat, k < j → l[j]? ≠ some c := by
  induction l generalizing k with
  | nil => simp [rposition] at h
  | cons x xs ih =>
      rw [rposition] at h
      cases hr : rposition (fun w => w == c) xs with
      | some m =>
          rw [hr] at h
          injection h with h
          subst h
          obtain ⟨h1, h2⟩ := ih m hr
          refine ⟨by simpa using h1, ?_⟩
          intro j hj
          cases j with
          | zero => omega
          | succ i => simpa using h2 i (by omega)
      | none =>
          rw [hr] at h
          by_cases hx : x = c
          · rw [if_pos (by simp [hx])] at h
            injection h with h
            subst h
            refine ⟨by simp [hx], ?_⟩
            intro j hj
            cases j with
            | zero => omega
            | succ i => simpa using rposition_none c xs hr i
          · rw [if_neg (by simp [hx])] at h
            exact Option.noConfusion h

theorem rposition_complete (c : Color) (l : List Color) (k : Nat)
    (hk : l[k]? = some c) (hafter : ∀ j : Nat, k < j → l[j]? ≠ some c) :
    rposition (fun w => w == c) l = some k := by
  cases hp : rposition (fun w => w == c) l with
  | none => exact absurd hk (rposition_none c l hp k)
  | some m =>
      obtain ⟨h1, h2⟩ := rposition_sound c l m hp
      rcases Nat.lt_trichotomy m k with h | h | h
      · exact absurd hk (h2 k h)
      · rw [h]
      · exact absurd h1 (hafter m h)

theorem position_lt_length (c : Color) (l : List Color) (k : Nat)
    (h : position (fun w => w == c) l = some k) : k < l.length := by
  have h1 := (position_sound c l k h).1
  by_contra hk
  rw [List.getElem?_eq_none (by omega)] at h1
  exact Option.noConfusion h1

theorem rposition_lt_length (c : Color) (l : List Color) (k : Nat)
    (h : rposition (fun w => w == c) l = some k) : k < l.length := by
  have h1 := (rposition_sound c l k h).1
  by_contra hk
  rw [List.getElem?_eq_none (by omega)] at h1
  exact Option.noConfusion h1

theorem as_index_first_eq_position (c : Color) (wires : List Color)
    (h : wires.length ≤ 256) :
    (Solution.FirstOfColor c).as_index wires = position (fun w => w == c) wires := by
  cases hp : position (fun w => w == c) wires with
  | none => simp [Solution.as_index, hp]
  | some m =>
      have hlt := position_lt_length c wires m hp
      simp [Solution.as_index, hp, Nat.mod_eq_of_lt (by omega : m < 256)]

theorem as_index_theOne_eq_position (c : Color) (wires : List Color)
    (h : wires.length ≤ 256) :
    (Solution.TheOneOfColor c).as_index wires = position (fun w => w == c) wires := by
  cases hp : position (fun w => w == c) wires with
  | none => simp [Solution.as_index, hp]
  | some m =>
      have hlt := position_lt_length c wires m hp
      simp [Solution.as_index, hp, Nat.mod_eq_of_lt (by omega : m < 256)]

theorem as_index_last_eq_rposition (c : Color) (wires : List Color)
    (h : wires.length ≤ 256) :
    (Solution.LastOfColor c).as_index wires = rposition (fun w => w == c) wires := by
  cases hp : rposition (fun w => w == c) wires with
  | none => simp [Solution.as_index, hp]
  | some m =>
      have hlt := rposition_lt_length c wires m hp
      simp [Solution.as_index, hp, Nat.mod_eq_of_lt (by omega : m < 256)]

theorem position_eq_none_iff (c : Color) (l : List Color) :
    position (fun w => w == c) l = none ↔ c ∉ l := by
  constructor
  · intro h hc
    obtain ⟨i, hi⟩ := List.mem_iff_getElem?.1 hc
    exact position_none c l h i hi
  · intro hc
    cases hp : position (fun w => w == c) l with
    | none => rfl
    | some k =>
        have h1 := (position_sound c l k hp).1
        exact absurd (List.mem_iff_getElem?.2 ⟨k, h1⟩) hc

theorem rposition_eq_none_iff (c : Color) (l : List Color) :
    rposition (fun w => w == c) l = none ↔ c ∉ l := by
  constructor
  · intro h hc
    obtain ⟨i, hi⟩ := List.mem_iff_getElem?.1 hc
    exact rposition_none c l h i hi
  · intro hc
    cases hp : rposition (fun w => w == c) l with
    | none => rfl
    | some k =>
        have h1 := (rposition_sound c l k hp).1
        exact absurd (List.mem_iff_getElem?.2 ⟨k, h1⟩) hc

/-! ### Claim C2 -/

/-- C2: `Rule::is_valid` holds for every single-query rule; a rule of two wire
queries with the same color is invalid exactly when the unordered kind pair is
one of {ExactlyOneOfColor, ExactlyZeroOfColor}, {ExactlyOneOfColor,
MoreThanOneOfColor}, {MoreThanOneOfColor, ExactlyZeroOfColor}, {LastWireIs,
ExactlyZeroOfColor}; with different colors it is invalid exactly when both
kinds are LastWireIs; and any two-query rule with an edgework query in either
slot is valid. -/
theorem c2_rule_validity :
    (∀ (s : Solution) (q : Query), (Rule.mk [q] s).isValid = true)
    ∧ (∀ (s : Solution) (k1 k2 : WireQueryType) (c1 c2 : Color),
        ((Rule.mk [Query.Wire ⟨k1, c1⟩, Query.Wire ⟨k2, c2⟩] s).isValid = false ↔
          ((c1 = c2 ∧
              ((k1 = .ExactlyOneOfColor ∧ k2 = .ExactlyZeroOfColor)
                ∨ (k1 = .ExactlyZeroOfColor ∧ k2 = .ExactlyOneOfColor)
                ∨ (k1 = .ExactlyOneOfColor ∧ k2 = .MoreThanOneOfColor)
                ∨ (k1 = .MoreThanOneOfColor ∧ k2 = .ExactlyOneOfColor)
                ∨ (k1 = .MoreThanOneOfColor ∧ k2 = .ExactlyZeroOfColor)
                ∨ (k1 = .ExactlyZeroOfColor ∧ k2 = .MoreThanOneOfColor)
                ∨ (k1 = .LastWireIs ∧ k2 = .ExactlyZeroOfColor)
                ∨ (k1 = .ExactlyZeroOfColor ∧ k2 = .LastWireIs)))
            ∨ (¬c1 = c2 ∧ k1 = .LastWireIs ∧ k2 = .LastWireIs))))
    ∧ (∀ (s : Solution) (e : EdgeworkQuery) (q : Query),
        (Rule.mk [Query.Edgework e, q] s).isValid = true
          ∧ (Rule.mk [q, Query.Edgework e] s).isValid = true) := by
  refine ⟨fun s q => rfl, ?_, ?_⟩
  · intro s k1 k2 c1 c2
    have hs : (Rule.mk [Query.Wire ⟨k1, c1⟩, Query.Wire ⟨k2, c2⟩] s).isValid
        = (Rule.mk [Query.Wire ⟨k1, c1⟩, Query.Wire ⟨k2, c2⟩] (Solution.Index 0)).isValid := rfl
    rw [hs]
    cases k1 <;> cases k2 <;> cases c1 <;> cases c2 <;> decide
  · intro s e q
    cases q <;> exact ⟨rfl, rfl⟩

/-! ### Claim C3 -/

/-- C3: for every color `c` and wire sequence, `WireQuery::evaluate` agrees
with the spec: `LastWireIs(c)` is true iff the last element equals `c`
(requiring a non-empty sequence), `ExactlyOneOfColor(c)` iff the count of `c`
is exactly 1, `MoreThanOneOfColor(c)` iff it exceeds 1, and
`ExactlyZeroOfColor(c)` iff it is 0, counting over the full sequence. -/
theorem c3_wire_query_semantics (c : Color) (wires : List Color) :
    (∀ h : wires ≠ [],
        ((WireQuery.mk .LastWireIs c).evaluate wires = some true ↔ wires.getLast h = c))
    ∧ (WireQuery.mk .ExactlyOneOfColor c).evaluate wires = some (wires.count c == 1)
    ∧ (WireQuery.mk .MoreThanOneOfColor c).evaluate wires
        = some (decide (1 < wires.count c))
    ∧ (WireQuery.mk .ExactlyZeroOfColor c).evaluate wires = some (wires.count c == 0) := by
  refine ⟨?_, ?_, ?_, ?_⟩
  · intro h
    rw [show (WireQuery.mk .LastWireIs c).evaluate wires
          = wires.getLast?.map (fun x => x == c) from rfl,
      List.getLast?_eq_getLast _ h]
    simp
  · simp [WireQuery.evaluate, countColor_eq_count]
  · simp [WireQuery.evaluate, countColor_eq_count]
  · simp [WireQuery.evaluate, countColor_eq_count]

/-- Witness for C3 at a concrete input. -/
theorem c3_wire_query_semantics_witness :
    (WireQuery.mk .LastWireIs Color.Blue).evaluate [Color.Red, Color.Black, Color.Blue]
        = some true
      ↔ [Color.Red, Color.Black, Color.Blue].getLast (by decide) = Color.Blue :=
  (c3_wire_query_semantics Color.Blue [Color.Red, Color.Black, Color.Blue]).1 (by decide)

/-! ### Claim C4 -/

/-- C4 (counterexample to the claim as stated): on the empty wire sequence,
the single rule of `lastRedRuleList` does not hold, yet evaluation does not
return the `otherwise` solution — it panics (`none`), because `LastWireIs`
dereferences `wires.last().unwrap()`. -/
theorem c4_counterexample :
    lastRedRule.evaluate exampleEdgework [] ≠ some true
    ∧ lastRedRuleList.evaluate exampleEdgework [] = none
    ∧ lastRedRuleList.otherwise = Solution.Index 1 := by
  decide

/-- C4 (amended): for every rule list, edgework and *non-empty* wire
sequence, `RuleList::evaluate` returns the solution of the first rule in
stored order all of whose queries hold, and the `otherwise` solution if no
rule matches; a rule holds exactly when each of its queries evaluates to
true. -/
theorem c4_rulelist_evaluate (rl : RuleList) (e : Edgework) (wires : List Color)
    (h : wires ≠ []) :
    rl.evaluate e wires =
      some (((rl.rules.find? (fun r => r.evaluate e wires == some true)).map
        Rule.solution).getD rl.otherwise)
    ∧ ∀ r ∈ rl.rules, (r.evaluate e wires = some true ↔
        ∀ q ∈ r.queries, q.evaluate e wires = some true) := by
  constructor
  · exact firstMatch_eq_find? rl.rules rl.otherwise e wires
      (fun r _ => Rule.evaluate_total_of_ne_nil r e wires h)
  · intro r _
    exact allQueriesHold_eq_true_iff r.queries e wires

/-- Witness for C4 (amended) at a concrete input. -/
theorem c4_rulelist_evaluate_witness :
    lastRedRuleList.evaluate exampleEdgework [Color.Black, Color.Red] =
      some (((lastRedRuleList.rules.find?
        (fun r => r.evaluate exampleEdgework [Color.Black, Color.Red] == some true)).map
        Rule.solution).getD lastRedRuleList.otherwise)
    ∧ ∀ r ∈ lastRedRuleList.rules,
        (r.evaluate exampleEdgework [Color.Black, Color.Red] = some true ↔
          ∀ q ∈ r.queries,
            q.evaluate exampleEdgework [Color.Black, Color.Red] = some true) :=
  c4_rulelist_evaluate lastRedRuleList exampleEdgework [Color.Black, Color.Red] (by decide)

/-! ### Claim C5 -/

/-- C5: `RuleSet::new` is deterministic: two calls with the same seed (and the
same pseudo-random source construction, which the PRNG contract guarantees is
a function of the seed) yield structurally equal rule sets.  In this pure
embedding the generation pipeline is a function, so the property holds
definitionally — the embedding carries no hidden state. -/
theorem c5_determinism (fuel : Nat) (mkRandom : Nat → RuleseedRandom) (seed : Nat) :
    RuleSet.new fuel mkRandom seed = RuleSet.new fuel mkRandom seed := rfl

/-! ### Claim C6 -/

/-- C6 (amended): `Solution::as_index` maps `Index(n)` to `n`;
`FirstOfColor(c)`/`TheOneOfColor(c)` to the position of the first wire of
color `c`; `LastOfColor(c)` to the position of the last wire of color `c`;
and `none` (not a panic, not index 0) when no wire of color `c` exists —
provided the sequence has at most 256 wires (the `as u8` conversion in the
source truncates longer positions modulo 256). -/
theorem c6_as_index (wires : List Color) (c : Color) (n : Nat)
    (h : wires.length ≤ 256) :
    (Solution.Index n).as_index wires = some n
    ∧ (∀ k : Nat, ((Solution.FirstOfColor c).as_index wires = some k ↔
        (wires[k]? = some c ∧ ∀ j : Nat, j < k → wires[j]? ≠ some c)))
    ∧ (∀ k : Nat, ((Solution.TheOneOfColor c).as_index wires = some k ↔
        (wires[k]? = some c ∧ ∀ j : Nat, j < k → wires[j]? ≠ some c)))
    ∧ (∀ k : Nat, ((Solution.LastOfColor c).as_index wires = some k ↔
        (wires[k]? = some c ∧ ∀ j : Nat, k < j → wires[j]? ≠ some c)))
    ∧ ((Solution.FirstOfColor c).as_index wires = none ↔ c ∉ wires)
    ∧ ((Solution.TheOneOfColor c).as_index wires = none ↔ c ∉ wires)
    ∧ ((Solution.LastOfColor c).as_index wires = none ↔ c ∉ wires) := by
  refine ⟨rfl, ?_, ?_, ?_, ?_, ?_, ?_⟩
  · intro k
    rw [as_index_first_eq_position c wires h]
    exact ⟨position_sound c wires k, fun ⟨h1, h2⟩ => position_complete c wires k h1 h2⟩
  · intro k
    rw [as_index_theOne_eq_position c wires h]
    exact ⟨position_sound c wires k, fun ⟨h1, h2⟩ => position_complete c wires k h1 h2⟩
  · intro k
    rw [as_index_last_eq_rposition c wires h]
    exact ⟨rposition_sound c wires k, fun ⟨h1, h2⟩ => rposition_complete c wires k h1 h2⟩
  · rw [as_index_first_eq_position c wires h]
    exact position_eq_none_iff c wires
  · rw [as_index_theOne_eq_position c wires h]
    exact position_eq_none_iff c wires
  · rw [as_index_last_eq_rposition c wires h]
    exact rposition_eq_none_iff c wires

/-- C6 (counterexample to the claim as stated): on a 257-wire sequence whose
first (and only) red wire is at position 256, `as_index(FirstOfColor(Red))`
returns 0 — the position truncated modulo 256 by the `as u8` cast — although
the wire at position 0 is black. -/
theorem c6_counterexample :
    (Solution.FirstOfColor Color.Red).as_index longWires = some 0
    ∧ longWires[0]? = some Color.Black
    ∧ Color.Black ≠ Color.Red
    ∧ position (fun w => w == Color.Red) longWires = some 256 := by
  decide

/-- Witness for C6 (amended) at a concrete input. -/
theorem c6_as_index_witness :
    (Solution.FirstOfColor Color.Red).as_index [Color.Black, Color.Red] = some 1 ↔
      ([Color.Black, Color.Red][1]? = some Color.Red
        ∧ ∀ j : Nat, j < 1 → [Color.Black, Color.Red][j]? ≠ some Color.Red) :=
  (c6_as_index [Color.Black, Color.Red] Color.Red 0 (by decide)).2.1 1

/-! ### Claim C10 -/

/-- C10: calling `RuleSet::new` with the reserved (vanilla) seed short-circuits
to `vanilla_ruleset()` without running the generation loop — but
`vanilla_ruleset`'s body in the sources is `unimplemented!()`, a panic
(modelled as `none`); the static table exists only as commented-out code. -/
theorem c10_vanilla_seed (fuel : Nat) (mkRandom : Nat → RuleseedRandom) :
    RuleSet.new fuel mkRandom VANILLA_SEED = vanillaRuleset ∧ vanillaRuleset = none :=
  ⟨by simp [RuleSet.new], rfl⟩

/-! ### Lemmas about rule generation -/

theorem SolutionWeightKey.colorize_ofSolution {k : SolutionWeightKey}
    {r r2 : RuleseedRandom} {cs : List Color} {sol : Solution}
    (h : k.colorize r cs = some (sol, r2)) :
    SolutionWeightKey.ofSolution sol = k := by
  cases k with
  | Index n =>
      simp only [SolutionWeightKey.colorize, Option.some.injEq, Prod.mk.injEq] at h
      rw [← h.1]
      rfl
  | TheOneOfColor =>
      simp only [SolutionWeightKey.colorize] at h
      cases hc : (r.choice cs).1 with
      | none => rw [hc] at h; exact Option.noConfusion h
      | some color =>
          rw [hc] at h
          simp only [Option.some.injEq, Prod.mk.injEq] at h
          rw [← h.1]
          rfl
  | FirstOfColor =>
      simp only [SolutionWeightKey.colorize] at h
      cases hc : (r.choice cs).1 with
      | none => rw [hc] at h; exact Option.noConfusion h
      | some color =>
          rw [hc] at h
          simp only [Option.some.injEq, Prod.mk.injEq] at h
          rw [← h.1]
          rfl
  | LastOfColor =>
      simp only [SolutionWeightKey.colorize] at h
      cases hc : (r.choice cs).1 with
      | none => rw [hc] at h; exact Option.noConfusion h
      | some color =>
          rw [hc] at h
          simp only [Option.some.injEq, Prod.mk.injEq] at h
          rw [← h.1]
          rfl

theorem solutionStep_spec {gs : GenState} {queries : List Query} {wc : Nat}
    {sol : Solution} {gs2 : GenState}
    (h : solutionStep gs queries wc = some (sol, gs2)) :
    SolutionWeightKey.ofSolution sol ∈ possibleSolutions queries wc := by
  unfold solutionStep at h
  split at h
  · exact Option.noConfusion h
  · rename_i key hkey
    split at h
    · exact Option.noConfusion h
    · rename_i sol2 r2 hcol
      simp only [Option.some.injEq, Prod.mk.injEq] at h
      obtain ⟨hsol, -⟩ := h
      subst hsol
      rw [SolutionWeightKey.colorize_ofSolution hcol]
      exact RuleseedRandom.weightedSelect_mem hkey

theorem generateRule_spec {gs : GenState} {wc : Nat} {v : Bool} {rule : Rule}
    {gs2 : GenState} (h : generateRule gs wc v = some (rule, gs2)) :
    (rule.queries.length = 1 ∨ rule.queries.length = 2)
    ∧ SolutionWeightKey.ofSolution rule.solution
        ∈ possibleSolutions rule.queries wc := by
  unfold generateRule at h
  split at h
  · exact Option.noConfusion h
  · rename_i mainQuery colorsAvailable gs1 hmain
    split at h
    · exact Option.noConfusion h
    · rename_i auxQuery ca gs3 haux
      split at h
      · exact Option.noConfusion h
      · rename_i solution gs4 hsol
        simp only [Option.some.injEq, Prod.mk.injEq] at h
        obtain ⟨hrule, -⟩ := h
        subst hrule
        constructor
        · cases auxQuery <;> simp [Option.toList]
        · exact solutionStep_spec hsol

theorem buildRules_spec {wc : Nat} {v : Bool} (P : Rule → Prop)
    (hgen : ∀ gs gs2 rule, generateRule gs wc v = some (rule, gs2) → P rule) :
    ∀ fuel : Nat, ∀ gs : GenState, ∀ acc : List Rule, ∀ ruleCount : Nat,
      ∀ rules : List Rule, ∀ gs3 : GenState,
      buildRules wc v fuel gs acc ruleCount = some (rules, gs3) →
      acc.length ≤ ruleCount → (∀ r ∈ acc, P r) →
      rules.length = ruleCount ∧ ∀ r ∈ rules, P r := by
  intro fuel
  induction fuel with
  | zero =>
      intro gs acc ruleCount rules gs3 h hlen hP
      rw [buildRules] at h
      split at h
      · exact Option.noConfusion h
      · rename_i hge
        simp only [Option.some.injEq, Prod.mk.injEq] at h
        obtain ⟨rfl, -⟩ := h
        exact ⟨by omega, hP⟩
  | succ fuel ih =>
      intro gs acc ruleCount rules gs3 h hlen hP
      rw [buildRules] at h
      split at h
      · rename_i hlt
        split at h
        · exact Option.noConfusion h
        · rename_i rule gs2 hgenEq
          refine ih gs2 _ ruleCount rules gs3 h ?_ ?_
          · by_cases hv : rule.isValid = true
            · rw [if_pos hv]
              simp only [List.length_append, List.length_cons, List.length_nil]
              omega
            · rw [if_neg hv]
              omega
          · intro r hr
            by_cases hv : rule.isValid = true
            · rw [if_pos hv] at hr
              rcases List.mem_append.1 hr with hr | hr
              · exact hP r hr
              · rw [List.mem_singleton.1 hr]
                exact hgen gs gs2 rule hgenEq
            · rw [if_neg hv] at hr
              exact hP r hr
      · rename_i hge
        simp only [Option.some.injEq, Prod.mk.injEq] at h
        obtain ⟨rfl, -⟩ := h
        exact ⟨by omega, hP⟩

/-! ### Lemmas about the stable sort -/

theorem insertByKey_length (key : α → Nat) (x : α) (l : List α) :
    (insertByKey key x l).length = l.length + 1 := by
  induction l with
  | nil => rfl
  | cons y ys ih => rw [insertByKey]; split <;> simp [ih]

theorem sortByKey_length (key : α → Nat) (l : List α) :
    (sortByKey key l).length = l.length := by
  induction l with
  | nil => rfl
  | cons x xs ih => simp [sortByKey, insertByKey_length, ih]

theorem mem_insertByKey (key : α → Nat) (x a : α) (l : List α) :
    a ∈ insertByKey key x l ↔ a = x ∨ a ∈ l := by
  induction l with
  | nil => simp [insertByKey]
  | cons y ys ih =>
      rw [insertByKey]
      split
      · simp only [List.mem_cons, ih]
        tauto
      · simp only [List.mem_cons]

theorem mem_sortByKey (key : α → Nat) (a : α) (l : List α) :
    a ∈ sortByKey key l ↔ a ∈ l := by
  induction l with
  | nil => simp [sortByKey]
  | cons x xs ih => rw [sortByKey, mem_insertByKey]; simp [ih]

theorem insertByKey_append (key : α → Nat) (x : α) (a b : List α)
    (ha : ∀ y ∈ a, key y < key x) :
    insertByKey key x (a ++ b) = a ++ insertByKey key x b := by
  induction a with
  | nil => simp
  | cons y ys ih =>
      rw [List.cons_append, insertByKey, if_pos (ha y (by simp))]
      rw [ih (fun z hz => ha z (by simp [hz]))]
      rfl

theorem insertByKey_of_not_lt (key : α → Nat) (x : α) (b : List α)
    (hb : ∀ y ∈ b, ¬(key y < key x)) :
    insertByKey key x b = x :: b := by
  cases b with
  | nil => rfl
  | cons y ys => rw [insertByKey, if_neg (hb y (by simp))]

theorem Rule.sortKey_of_length_one {r : Rule} (h : r.queries.length = 1) :
    r.sortKey = 2 ^ 64 - 1 := by
  have h1 : (1 : Nat) % 2 ^ 64 = 1 := Nat.mod_eq_of_lt (by norm_num)
  have h2 : (2 : Nat) ^ 64 - 1 < 2 ^ 64 := by
    have : (0 : Nat) < 2 ^ 64 := by positivity
    omega
  simp [Rule.sortKey, h, h1, Nat.mod_eq_of_lt h2]

theorem Rule.sortKey_of_length_two {r : Rule} (h : r.queries.length = 2) :
    r.sortKey = 2 ^ 64 - 2 := by
  have h1 : (2 : Nat) % 2 ^ 64 = 2 := Nat.mod_eq_of_lt (by norm_num)
  have h2 : (2 : Nat) ^ 64 - 2 < 2 ^ 64 := by
    have : (0 : Nat) < 2 ^ 64 := by positivity
    omega
  simp [Rule.sortKey, h, h1, Nat.mod_eq_of_lt h2]

/-- On lists whose rules have 1 or 2 queries — the only shapes generation
produces — the stable sort by `queries.len().wrapping_neg()` puts the
two-query rules first and the one-query rules second, each block in its
original relative order. -/
theorem sortByKey_partition (l : List Rule)
    (hlen : ∀ r ∈ l, r.queries.length = 1 ∨ r.queries.length = 2) :
    sortByKey Rule.sortKey l
      = l.filter (fun r => r.queries.length == 2)
        ++ l.filter (fun r => r.queries.length == 1) := by
  induction l with
  | nil => rfl
  | cons x xs ih =>
      have hx := hlen x (by simp)
      have ihs := ih (fun r hr => hlen r (by simp [hr]))
      rw [sortByKey, ihs]
      rcases hx with h1 | h2
      · rw [insertByKey_append _ _ _ _ ?ha, insertByKey_of_not_lt _ _ _ ?hb]
        case ha =>
          intro y hy
          have hy2 : y.queries.length = 2 := by
            simpa using (List.mem_filter.1 hy).2
          rw [Rule.sortKey_of_length_two hy2, Rule.sortKey_of_length_one h1]
          norm_num
        case hb =>
          intro y hy
          have hy1 : y.queries.length = 1 := by
            simpa using (List.mem_filter.1 hy).2
          rw [Rule.sortKey_of_length_one hy1, Rule.sortKey_of_length_one h1]
          exact lt_irrefl _
        rw [List.filter_cons, List.filter_cons]
        simp [h1]
      · rw [insertByKey_of_not_lt _ _ _ ?hb]
        case hb =>
          intro y hy
          rcases List.mem_append.1 hy with hy2 | hy1
          · have : y.queries.length = 2 := by
              simpa using (List.mem_filter.1 hy2).2
            rw [Rule.sortKey_of_length_two this, Rule.sortKey_of_length_two h2]
            exact lt_irrefl _
          · have : y.queries.length = 1 := by
              simpa using (List.mem_filter.1 hy1).2
            rw [Rule.sortKey_of_length_one this, Rule.sortKey_of_length_two h2]
            norm_num
        rw [List.filter_cons, List.filter_cons]
        simp [h2]

theorem otherwiseStep_spec {gs : GenState} {sorted : List Rule} {wc : Nat}
    {sol : Solution} {r2 : RuleseedRandom}
    (h : otherwiseStep gs sorted wc false = some (sol, r2)) :
    ∃ lastRule, sorted.getLast? = some lastRule
      ∧ SolutionWeightKey.ofSolution sol ∈ possibleSolutions [] wc
      ∧ SolutionWeightKey.ofSolution sol
          ≠ SolutionWeightKey.ofSolution lastRule.solution := by
  unfold otherwiseStep at h
  split at h
  · exact Option.noConfusion h
  · rename_i solutions hsolutions
    rw [if_neg (by simp)] at hsolutions
    obtain ⟨lastRule, hlast, hfilter⟩ := Option.map_eq_some'.1 hsolutions
    split at h
    · exact Option.noConfusion h
    · rename_i key hkey
      have hof := SolutionWeightKey.colorize_ofSolution h
      have hmem := RuleseedRandom.choice_mem hkey
      subst hfilter
      have hmf := List.mem_filter.1 hmem
      refine ⟨lastRule, hlast, ?_, ?_⟩
      · rw [hof]
        exact hmf.1
      · rw [hof]
        simpa using hmf.2

theorem genForWireCount_spec {fuel : Nat} {random : RuleseedRandom} {wc : Nat}
    {v : Bool} {pre : List Rule} {rl : RuleList} {rOut : RuleseedRandom}
    (h : genForWireCount fuel random wc v = some (pre, rl, rOut)) :
    rl.rules = sortByKey Rule.sortKey pre
    ∧ pre.length = (rollRuleCount random).1
    ∧ (∀ r ∈ pre, (r.queries.length = 1 ∨ r.queries.length = 2)
        ∧ SolutionWeightKey.ofSolution r.solution ∈ possibleSolutions r.queries wc)
    ∧ (v = false →
        ∃ lastRule, rl.rules.getLast? = some lastRule
          ∧ SolutionWeightKey.ofSolution rl.otherwise ∈ possibleSolutions [] wc
          ∧ SolutionWeightKey.ofSolution rl.otherwise
              ≠ SolutionWeightKey.ofSolution lastRule.solution) := by
  unfold genForWireCount at h
  split at h
  · exact Option.noConfusion h
  · rename_i rules gs hbuild
    split at h
    · exact Option.noConfusion h
    · rename_i otherwise rOut2 hother
      simp only [Option.some.injEq, Prod.mk.injEq] at h
      obtain ⟨hpre, hrl, -⟩ := h
      subst hpre
      subst hrl
      have hbr := buildRules_spec
        (fun r => (r.queries.length = 1 ∨ r.queries.length = 2)
          ∧ SolutionWeightKey.ofSolution r.solution ∈ possibleSolutions r.queries wc)
        (fun gs1 gs2 rule hg => generateRule_spec hg)
        fuel ⟨(rollRuleCount random).2, [], []⟩ []
        (rollRuleCount random).1 rules gs hbuild (Nat.zero_le _)
        (fun r hr => absurd hr (List.not_mem_nil r))
      refine ⟨rfl, hbr.1, hbr.2, ?_⟩
      intro hv
      subst hv
      exact otherwiseStep_spec hother

theorem genForWireCount_length {fuel : Nat} {random : RuleseedRandom} {wc : Nat}
    {v : Bool} {pre : List Rule} {rl : RuleList} {rOut : RuleseedRandom}
    (h : genForWireCount fuel random wc v = some (pre, rl, rOut)) :
    rl.rules.length = (rollRuleCount random).1 := by
  obtain ⟨hsort, hlen, -, -⟩ := genForWireCount_spec h
  rw [hsort, sortByKey_length, hlen]

theorem genForWireCount_index_bound {fuel : Nat} {random : RuleseedRandom}
    {wc : Nat} {pre : List Rule} {rl : RuleList} {rOut : RuleseedRandom}
    (hw : 2 ≤ wc)
    (h : genForWireCount fuel random wc false = some (pre, rl, rOut)) :
    rl.indexSolutionsWithin wc := by
  obtain ⟨hsort, -, hall, hother⟩ := genForWireCount_spec h
  constructor
  · intro r hr n hn
    have hrp : r ∈ pre := (mem_sortByKey _ _ _).1 (hsort ▸ hr)
    have hmem := (hall r hrp).2
    rw [hn] at hmem
    exact possibleSolutions_index_le hmem hw n rfl
  · intro n hn
    obtain ⟨lastRule, -, hmem, -⟩ := hother rfl
    rw [hn] at hmem
    exact possibleSolutions_index_le hmem hw n rfl

theorem RuleSet.new_spec {fuel : Nat} {mkRandom : Nat → RuleseedRandom}
    {seed : Nat} {rs : RuleSet} (hseed : seed ≠ VANILLA_SEED)
    (h : RuleSet.new fuel mkRandom seed = some rs) :
    ∃ p3 rl3 r3 p4 rl4 r4 p5 rl5 r5 p6 rl6 r6,
      genForWireCount fuel (mkRandom seed) 3 false = some (p3, rl3, r3)
      ∧ genForWireCount fuel r3 4 false = some (p4, rl4, r4)
      ∧ genForWireCount fuel r4 5 false = some (p5, rl5, r5)
      ∧ genForWireCount fuel r5 6 false = some (p6, rl6, r6)
      ∧ rs.lists = [rl3, rl4, rl5, rl6] := by
  unfold RuleSet.new at h
  rw [if_neg hseed] at h
  simp only [decide_eq_false hseed] at h
  split at h
  · exact Option.noConfusion h
  · rename_i p3 rl3 r3 h3
    split at h
    · exact Option.noConfusion h
    · rename_i p4 rl4 r4 h4
      split at h
      · exact Option.noConfusion h
      · rename_i p5 rl5 r5 h5
        split at h
        · exact Option.noConfusion h
        · rename_i p6 rl6 r6 h6
          simp only [Option.some.injEq] at h
          exact ⟨p3, rl3, r3, p4, rl4, r4, p5, rl5, r5, p6, rl6, r6,
            h3, h4, h5, h6, by rw [← h]⟩

theorem getElem?_four {α : Type} {a b c d x : α} {i : Nat}
    (h : ([a, b, c, d] : List α)[i]? = some x) :
    (i = 0 ∧ x = a) ∨ (i = 1 ∧ x = b) ∨ (i = 2 ∧ x = c) ∨ (i = 3 ∧ x = d) := by
  match i with
  | 0 => simp only [List.getElem?_cons_zero, Option.some.injEq] at h; exact Or.inl ⟨rfl, h.symm⟩
  | 1 =>
      simp only [List.getElem?_cons_succ, List.getElem?_cons_zero, Option.some.injEq] at h
      exact Or.inr (Or.inl ⟨rfl, h.symm⟩)
  | 2 =>
      simp only [List.getElem?_cons_succ, List.getElem?_cons_zero, Option.some.injEq] at h
      exact Or.inr (Or.inr (Or.inl ⟨rfl, h.symm⟩))
  | 3 =>
      simp only [List.getElem?_cons_succ, List.getElem?_cons_zero, Option.some.injEq] at h
      exact Or.inr (Or.inr (Or.inr ⟨rfl, h.symm⟩))
  | n + 4 => simp at h

/-! ### Single-step evaluation lemmas, used to compute concrete runs -/

theorem buildRules_step_valid {wc : Nat} {v : Bool} {fuel : Nat}
    {gs gs2 : GenState} {acc : List Rule} {rc : Nat} {rule : Rule}
    (hlt : acc.length < rc)
    (hgen : generateRule gs wc v = some (rule, gs2))
    (hval : rule.isValid = true) :
    buildRules wc v (fuel + 1) gs acc rc
      = buildRules wc v fuel gs2 (acc ++ [rule]) rc := by
  rw [buildRules, if_pos hlt, hgen]
  simp [hval]

theorem buildRules_done {wc : Nat} {v : Bool} {fuel : Nat} {gs : GenState}
    {acc : List Rule} {rc : Nat} (h : ¬acc.length < rc) :
    buildRules wc v fuel gs acc rc = some (acc, gs) := by
  cases fuel with
  | zero => rw [buildRules, if_neg h]
  | succ fuel => rw [buildRules, if_neg h]

theorem buildRules_three {wc : Nat} {v : Bool} {gs0 gs1 gs2 gs3 : GenState}
    {r1 r2 r3 : Rule}
    (h1 : generateRule gs0 wc v = some (r1, gs1))
    (h2 : generateRule gs1 wc v = some (r2, gs2))
    (h3 : generateRule gs2 wc v = some (r3, gs3))
    (v1 : r1.isValid = true) (v2 : r2.isValid = true) (v3 : r3.isValid = true) :
    buildRules wc v 3 gs0 [] 3 = some ([r1, r2, r3], gs3) := by
  rw [buildRules_step_valid (by simp) h1 v1]
  rw [buildRules_step_valid (by simp) h2 v2]
  rw [buildRules_step_valid (by simp) h3 v3]
  rw [buildRules_done (by simp)]
  simp

theorem genForWireCount_eq {fuel : Nat} {random : RuleseedRandom} {wc : Nat}
    {v : Bool} {rules : List Rule} {gs : GenState} {sol : Solution}
    {r2 : RuleseedRandom}
    (hbuild : buildRules wc v fuel ⟨(rollRuleCount random).2, [], []⟩ []
        (rollRuleCount random).1 = some (rules, gs))
    (hother : otherwiseStep gs (sortByKey Rule.sortKey rules) wc v = some (sol, r2)) :
    genForWireCount fuel random wc v
      = some (rules, ⟨sortByKey Rule.sortKey rules, sol⟩, r2) := by
  unfold genForWireCount
  simp only [hbuild, hother]

theorem RuleSet.new_eq {fuel : Nat} {mk : Nat → RuleseedRandom} {seed : Nat}
    (hseed : seed ≠ VANILLA_SEED)
    {p3 p4 p5 p6 : List Rule} {rl3 rl4 rl5 rl6 : RuleList}
    {r3 r4 r5 r6 : RuleseedRandom}
    (h3 : genForWireCount fuel (mk seed) 3 false = some (p3, rl3, r3))
    (h4 : genForWireCount fuel r3 4 false = some (p4, rl4, r4))
    (h5 : genForWireCount fuel r4 5 false = some (p5, rl5, r5))
    (h6 : genForWireCount fuel r5 6 false = some (p6, rl6, r6)) :
    RuleSet.new fuel mk seed = some ⟨[rl3, rl4, rl5, rl6]⟩ := by
  unfold RuleSet.new
  rw [if_neg hseed]
  simp only [decide_eq_false hseed, h3, h4, h5, h6]

theorem mk0_genRun (wc : Nat)
    (h1 : generateRule mk0GenState0 wc false = some (zeroRule, mk0GenState1))
    (h2 : generateRule mk0GenState1 wc false = some (zeroRule, mk0GenState2))
    (h3 : generateRule mk0GenState2 wc false = some (zeroRule, mk0GenState3))
    (hother : otherwiseStep mk0GenState3
        (sortByKey Rule.sortKey [zeroRule, zeroRule, zeroRule]) wc false
      = some (Solution.Index 1, ⟨[], []⟩)) :
    genForWireCount 3 ⟨[], []⟩ wc false
      = some ([zeroRule, zeroRule, zeroRule], zeroRuleList, ⟨[], []⟩) := by
  have hb0 := buildRules_three h1 h2 h3 (by decide) (by decide) (by decide)
  have hbuild : buildRules wc false 3 ⟨(rollRuleCount ⟨[], []⟩).2, [], []⟩ []
      (rollRuleCount ⟨[], []⟩).1 = some ([zeroRule, zeroRule, zeroRule], mk0GenState3) := by
    rw [show rollRuleCount ⟨[], []⟩ = (3, ⟨[], []⟩) from by decide]
    exact hb0
  exact (genForWireCount_eq hbuild hother).trans (by decide)

theorem mk0_run : RuleSet.new 3 mk0 2 = some zeroRuleSet := by
  have g3 := mk0_genRun 3 (by decide) (by decide) (by decide) (by decide)
  have g4 := mk0_genRun 4 (by decide) (by decide) (by decide) (by decide)
  have g5 := mk0_genRun 5 (by decide) (by decide) (by decide) (by decide)
  have g6 := mk0_genRun 6 (by decide) (by decide) (by decide) (by decide)
  exact RuleSet.new_eq (by decide) g3 g4 g5 g6

theorem c1_run : genForWireCount 3 c1Stream 3 false
    = some ([zeroRule, c1RuleB, c1RuleC],
        ⟨[c1RuleC, zeroRule, c1RuleB], Solution.Index 2⟩, ⟨[], []⟩) := by
  have h1 : generateRule c1GenState0 3 false = some (zeroRule, c1GenState1) := by decide
  have h2 : generateRule c1GenState1 3 false = some (c1RuleB, c1GenState2) := by decide
  have h3 : generateRule c1GenState2 3 false = some (c1RuleC, c1GenState3) := by decide
  have hb0 := buildRules_three h1 h2 h3 (by decide) (by decide) (by decide)
  have hbuild : buildRules 3 false 3 ⟨(rollRuleCount c1Stream).2, [], []⟩ []
      (rollRuleCount c1Stream).1 = some ([zeroRule, c1RuleB, c1RuleC], c1GenState3) := by
    rw [show rollRuleCount c1Stream = (3, c1GenState0.random) from by decide]
    exact hb0
  have hother : otherwiseStep c1GenState3
      (sortByKey Rule.sortKey [zeroRule, c1RuleB, c1RuleC]) 3 false
      = some (Solution.Index 2, ⟨[], []⟩) := by decide
  exact (genForWireCount_eq hbuild hother).trans (by decide)

theorem genForWireCount_sorted {fuel : Nat} {random : RuleseedRandom} {wc : Nat}
    {v : Bool} {pre : List Rule} {rl : RuleList} {rOut : RuleseedRandom}
    (h : genForWireCount fuel random wc v = some (pre, rl, rOut)) :
    rl.rules = pre.filter (fun r => r.queries.length == 2)
      ++ pre.filter (fun r => r.queries.length == 1) := by
  obtain ⟨hsort, -, hall, -⟩ := genForWireCount_spec h
  rw [hsort, sortByKey_partition pre (fun r hr => (hall r hr).1)]

theorem partition_compoundFirst (rl : RuleList) (A B : List Rule)
    (hAB : rl.rules = A ++ B)
    (hA : ∀ r ∈ A, r.queries.length = 2)
    (hB : ∀ r ∈ B, r.queries.length = 1) :
    rl.compoundFirst := by
  intro i j hi hj hij hcontra
  obtain ⟨h1, h2⟩ := hcontra
  have hi2 : rl.rules[i]? = some (rl.rules.get ⟨i, hi⟩) := by
    simp [List.getElem?_eq_getElem hi, List.get_eq_getElem]
  have hj2 : rl.rules[j]? = some (rl.rules.get ⟨j, hj⟩) := by
    simp [List.getElem?_eq_getElem hj, List.get_eq_getElem]
  have hgetA : ∀ k : Nat, k < A.length → ∀ r : Rule, rl.rules[k]? = some r →
      r.queries.length = 2 := by
    intro k hkA r hr
    rw [hAB, List.getElem?_append, if_pos hkA] at hr
    exact hA r (List.getElem?_mem hr)
  have hgetB : ∀ k : Nat, A.length ≤ k → ∀ r : Rule, rl.rules[k]? = some r →
      r.queries.length = 1 := by
    intro k hkB r hr
    rw [hAB, List.getElem?_append, if_neg (by omega)] at hr
    exact hB r (List.getElem?_mem hr)
  have hiA : A.length ≤ i := by
    by_contra hlt
    have e2 := hgetA i (by omega) _ hi2
    omega
  have hjA : j < A.length := by
    by_contra hge
    have e1 := hgetB j (by omega) _ hj2
    omega
  omega

/-! ### Claim C8 -/

/-- C8: for every non-reserved seed and every wire count, the generated rule
list has exactly 3 or 4 rules, with 3 exactly when the single rule-count
`next_double()` draw is below 0.6 (and 4 otherwise). -/
theorem c8_rule_count :
    (∀ (fuel : Nat) (mkRandom : Nat → RuleseedRandom) (seed : Nat) (rs : RuleSet),
        seed ≠ VANILLA_SEED → RuleSet.new fuel mkRandom seed = some rs →
        ∀ rl ∈ rs.lists, rl.rules.length = 3 ∨ rl.rules.length = 4)
    ∧ (∀ (fuel : Nat) (random : RuleseedRandom) (wc : Nat) (v : Bool)
        (pre : List Rule) (rl : RuleList) (rOut : RuleseedRandom),
        genForWireCount fuel random wc v = some (pre, rl, rOut) →
        ((rl.rules.length = 3 ↔ (random.nextDouble).1 < 3 / 5)
          ∧ (rl.rules.length = 3 ∨ rl.rules.length = 4))) := by
  have part2 : ∀ (fuel : Nat) (random : RuleseedRandom) (wc : Nat) (v : Bool)
      (pre : List Rule) (rl : RuleList) (rOut : RuleseedRandom),
      genForWireCount fuel random wc v = some (pre, rl, rOut) →
      ((rl.rules.length = 3 ↔ (random.nextDouble).1 < 3 / 5)
        ∧ (rl.rules.length = 3 ∨ rl.rules.length = 4)) := by
    intro fuel random wc v pre rl rOut hg
    have hlen := genForWireCount_length hg
    by_cases hd : (random.nextDouble).1 < 3 / 5
    · rw [hlen]
      simp [rollRuleCount, sixTenths_eq_div, hd]
    · rw [hlen]
      simp [rollRuleCount, sixTenths_eq_div, hd]
  refine ⟨?_, part2⟩
  intro fuel mkRandom seed rs hseed h rl hmem
  obtain ⟨p3, rl3, r3, p4, rl4, r4, p5, rl5, r5, p6, rl6, r6, h3, h4, h5, h6, hlists⟩ :=
    RuleSet.new_spec hseed h
  rw [hlists] at hmem
  simp only [List.mem_cons, List.not_mem_nil, or_false] at hmem
  rcases hmem with rfl | rfl | rfl | rfl
  · exact (part2 _ _ _ _ _ _ _ h3).2
  · exact (part2 _ _ _ _ _ _ _ h4).2
  · exact (part2 _ _ _ _ _ _ _ h5).2
  · exact (part2 _ _ _ _ _ _ _ h6).2

/-- Witness for C8 at a concrete input. -/
theorem c8_rule_count_witness :
    zeroRuleList.rules.length = 3 ∨ zeroRuleList.rules.length = 4 :=
  c8_rule_count.1 3 mk0 2 zeroRuleSet (by decide) mk0_run zeroRuleList (by decide)

/-! ### Claim C9 -/

/-- C9: in every generated rule list all two-query (compound) rules precede
all one-query rules, and the sort is stable: the relative order of rules with
equal query counts is preserved from the pre-sort generation order (the
filtered subsequences agree). -/
theorem c9_sort_order :
    (∀ (fuel : Nat) (mkRandom : Nat → RuleseedRandom) (seed : Nat) (rs : RuleSet),
        seed ≠ VANILLA_SEED → RuleSet.new fuel mkRandom seed = some rs →
        ∀ rl ∈ rs.lists, rl.compoundFirst)
    ∧ (∀ (fuel : Nat) (random : RuleseedRandom) (wc : Nat) (v : Bool)
        (pre : List Rule) (rl : RuleList) (rOut : RuleseedRandom),
        genForWireCount fuel random wc v = some (pre, rl, rOut) →
        (rl.rules.filter (fun r => r.queries.length == 2)
            = pre.filter (fun r => r.queries.length == 2)
          ∧ rl.rules.filter (fun r => r.queries.length == 1)
              = pre.filter (fun r => r.queries.length == 1))) := by
  have hfirst : ∀ (fuel : Nat) (random : RuleseedRandom) (wc : Nat) (v : Bool)
      (pre : List Rule) (rl : RuleList) (rOut : RuleseedRandom),
      genForWireCount fuel random wc v = some (pre, rl, rOut) → rl.compoundFirst := by
    intro fuel random wc v pre rl rOut hg
    refine partition_compoundFirst rl _ _ (genForWireCount_sorted hg) ?_ ?_
    · intro r hr
      simpa using (List.mem_filter.1 hr).2
    · intro r hr
      simpa using (List.mem_filter.1 hr).2
  constructor
  · intro fuel mkRandom seed rs hseed h rl hmem
    obtain ⟨p3, rl3, r3, p4, rl4, r4, p5, rl5, r5, p6, rl6, r6, h3, h4, h5, h6, hlists⟩ :=
      RuleSet.new_spec hseed h
    rw [hlists] at hmem
    simp only [List.mem_cons, List.not_mem_nil, or_false] at hmem
    rcases hmem with rfl | rfl | rfl | rfl
    · exact hfirst _ _ _ _ _ _ _ h3
    · exact hfirst _ _ _ _ _ _ _ h4
    · exact hfirst _ _ _ _ _ _ _ h5
    · exact hfirst _ _ _ _ _ _ _ h6
  · intro fuel random wc v pre rl rOut hg
    have hpart := genForWireCount_sorted hg
    have hA : (pre.filter (fun r => r.queries.length == 2)).filter
        (fun r => r.queries.length == 2) = pre.filter (fun r => r.queries.length == 2) :=
      List.filter_eq_self.2 (fun a ha => (List.mem_filter.1 ha).2)
    have hBnil : (pre.filter (fun r => r.queries.length == 1)).filter
        (fun r => r.queries.length == 2) = [] := by
      rw [List.filter_eq_nil_iff]
      intro a ha
      have := (List.mem_filter.1 ha).2
      simp at this ⊢
      omega
    have hAnil : (pre.filter (fun r => r.queries.length == 2)).filter
        (fun r => r.queries.length == 1) = [] := by
      rw [List.filter_eq_nil_iff]
      intro a ha
      have := (List.mem_filter.1 ha).2
      simp at this ⊢
      omega
    have hB : (pre.filter (fun r => r.queries.length == 1)).filter
        (fun r => r.queries.length == 1) = pre.filter (fun r => r.queries.length == 1) :=
      List.filter_eq_self.2 (fun a ha => (List.mem_filter.1 ha).2)
    constructor
    · rw [hpart, List.filter_append, hA, hBnil, List.append_nil]
    · rw [hpart, List.filter_append, hB, hAnil, List.nil_append]

/-- Witness for C9 at a concrete input. -/
theorem c9_sort_order_witness :
    zeroRuleList.rules.filter (fun r => r.queries.length == 2)
        = [zeroRule, zeroRule, zeroRule].filter (fun r => r.queries.length == 2)
      ∧ zeroRuleList.rules.filter (fun r => r.queries.length == 1)
          = [zeroRule, zeroRule, zeroRule].filter (fun r => r.queries.length == 1) :=
  c9_sort_order.2 3 ⟨[], []⟩ 3 false [zeroRule, zeroRule, zeroRule] zeroRuleList
    ⟨[], []⟩ (mk0_genRun 3 (by decide) (by decide) (by decide) (by decide))

/-! ### Claim C7 -/

/-- C7: for every non-reserved seed and wire count `w ∈ {3,4,5,6}` (list `i`
holds wire count `i + 3`), every `Index(n)` solution appearing in the
generated rule list — in rule solutions and in the `otherwise` fallback —
satisfies `n ≤ w - 1`. -/
theorem c7_index_bounds (fuel : Nat) (mkRandom : Nat → RuleseedRandom)
    (seed : Nat) (rs : RuleSet) (hseed : seed ≠ VANILLA_SEED)
    (h : RuleSet.new fuel mkRandom seed = some rs) :
    rs.lists.length = 4
    ∧ ∀ i : Nat, ∀ rl : RuleList, rs.lists[i]? = some rl →
        rl.indexSolutionsWithin (i + 3) := by
  obtain ⟨p3, rl3, r3, p4, rl4, r4, p5, rl5, r5, p6, rl6, r6, h3, h4, h5, h6, hlists⟩ :=
    RuleSet.new_spec hseed h
  constructor
  · rw [hlists]
    rfl
  · intro i rl hget
    rw [hlists] at hget
    rcases getElem?_four hget with ⟨rfl, rfl⟩ | ⟨rfl, rfl⟩ | ⟨rfl, rfl⟩ | ⟨rfl, rfl⟩
    · exact genForWireCount_index_bound (by norm_num) h3
    · exact genForWireCount_index_bound (by norm_num) h4
    · exact genForWireCount_index_bound (by norm_num) h5
    · exact genForWireCount_index_bound (by norm_num) h6

/-- Witness for C7 at a concrete input. -/
theorem c7_index_bounds_witness : zeroRuleList.indexSolutionsWithin 3 :=
  (c7_index_bounds 3 mk0 2 zeroRuleSet (by decide) mk0_run).2 0 zeroRuleList rfl

/-! ### Claim C1 -/

/-- C1 (counterexample to the claim as stated): under the stream `c1Stream`
at wire count 3, the last *generated* (pre-sort) rule is compound (2 queries)
with solution `Index 2`, and the `otherwise` fallback *equals* `Index 2`: the
code excludes the solution of the last rule *after* sorting (a one-query rule
here), not the last generated rule before sorting as claimed. -/
theorem c1_counterexample :
    ((genForWireCount 3 c1Stream 3 false).map
        (fun x => ((x.1.getLast?).map Rule.solution,
          (x.1.getLast?).map (fun r => r.queries.length), x.2.1.otherwise)))
      = some (some (Solution.Index 2), some 2, Solution.Index 2) := by
  rw [c1_run]
  rfl

/-- C1 (amended): for every non-reserved seed and wire count `i + 3`, the
`otherwise` fallback is drawn from the base `Index` candidate set with the
solution key of the *last rule of the sorted list* excluded — in particular
it differs from that rule's solution key (but not necessarily from the last
generated rule's solution pre-sort). -/
theorem c1_otherwise_excluded (fuel : Nat) (mkRandom : Nat → RuleseedRandom)
    (seed : Nat) (rs : RuleSet) (hseed : seed ≠ VANILLA_SEED)
    (h : RuleSet.new fuel mkRandom seed = some rs) :
    rs.lists.length = 4
    ∧ ∀ i : Nat, ∀ rl : RuleList, rs.lists[i]? = some rl →
        rl.otherwiseExcludesLast (i + 3) := by
  obtain ⟨p3, rl3, r3, p4, rl4, r4, p5, rl5, r5, p6, rl6, r6, h3, h4, h5, h6, hlists⟩ :=
    RuleSet.new_spec hseed h
  have excl : ∀ (fuel2 : Nat) (random : RuleseedRandom) (wc : Nat)
      (pre : List Rule) (rl : RuleList) (rOut : RuleseedRandom),
      genForWireCount fuel2 random wc false = some (pre, rl, rOut) →
      rl.otherwiseExcludesLast wc := by
    intro fuel2 random wc pre rl rOut hg lastRule hlastEq
    obtain ⟨-, -, -, hother⟩ := genForWireCount_spec hg
    obtain ⟨lastRule2, hlast2, hmem, hne⟩ := hother rfl
    rw [hlastEq] at hlast2
    injection hlast2 with e
    subst e
    exact ⟨hmem, hne⟩
  constructor
  · rw [hlists]
    rfl
  · intro i rl hget
    rw [hlists] at hget
    rcases getElem?_four hget with ⟨rfl, rfl⟩ | ⟨rfl, rfl⟩ | ⟨rfl, rfl⟩ | ⟨rfl, rfl⟩
    · exact excl _ _ _ _ _ _ h3
    · exact excl _ _ _ _ _ _ h4
    · exact excl _ _ _ _ _ _ h5
    · exact excl _ _ _ _ _ _ h6

/-- Witness for C1 (amended) at a concrete input. -/
theorem c1_otherwise_excluded_witness : zeroRuleList.otherwiseExcludesLast 3 :=
  (c1_otherwise_excluded 3 mk0 2 zeroRuleSet (by decide) mk0_run).2 0
    zeroRuleList rfl

end Wires
